import Mathlib

/-!
Verification of the price-query and comparison service of the StarPilot
repository (`src/examples/08_部署到雲端/render_範例_價格監控API.py`).

The catalog is the module-level dict `price_data`; the four Flask handlers
`get_all_prices`, `get_product_price`, `get_price_history` and
`compare_prices` are embedded as pure functions that take the catalog as
explicit state and return it alongside the response (none of the handlers
writes to `price_data`, so every embedded handler returns the state it was
given — mirroring the straight-line read-only Python bodies).

Python dicts preserve insertion order, so mappings are embedded as
association lists; `dict[k] = v` is `dictInsert`, which overwrites in
place when the key is present and appends otherwise, exactly as a Python
dict assignment behaves with respect to iteration order.
-/

namespace StarPilot

/-- One element of a product's `history` list: `{"date": ..., "price": ...}`. -/
structure HistoryEntry where
  date : String
  price : Nat
deriving Repr, DecidableEq

/-- A value of the `price_data` dict: `current_price`, `last_update`
(set from `datetime.now().isoformat()` at module load, embedded as an
arbitrary string parameter), and the `history` list. -/
structure ProductRecord where
  current_price : Nat
  last_update : String
  history : List HistoryEntry
deriving Repr, DecidableEq

/-- A Python dict from product name to record, as an insertion-ordered
association list. -/
abbrev Catalog := List (String × ProductRecord)

/-- `list(d.keys())` for a dict embedded as an association list. -/
def keys (c : Catalog) : List String := c.map Prod.fst

/-- The module-level `price_data` dict, parameterised by the timestamp `t`
that `datetime.now().isoformat()` produced at module load. -/
def price_data (t : String) : Catalog :=
  [ ("產品A",
      { current_price := 1200
        last_update := t
        history := [⟨"2024-01-01", 1000⟩, ⟨"2024-01-15", 1100⟩, ⟨"2024-02-01", 1200⟩] })
  , ("產品B",
      { current_price := 850
        last_update := t
        history := [⟨"2024-01-01", 900⟩, ⟨"2024-01-15", 875⟩, ⟨"2024-02-01", 850⟩] })
  , ("產品C",
      { current_price := 1500
        last_update := t
        history := [⟨"2024-01-01", 1400⟩, ⟨"2024-01-15", 1450⟩, ⟨"2024-02-01", 1500⟩] }) ]

/-- Python `str.strip()`: drop leading and trailing whitespace. -/
def pyStrip (s : String) : String :=
  ⟨((s.data.dropWhile Char.isWhitespace).reverse.dropWhile Char.isWhitespace).reverse⟩

/-- Python `str.split(',')`: cut at every comma, keeping empty pieces
(`''.split(',') == ['']`). Worker over the character list, `acc` holding
the current piece reversed. -/
def splitCommaAux : List Char → List Char → List String
  | [], acc => [⟨acc.reverse⟩]
  | c :: cs, acc =>
      if c = ',' then ⟨acc.reverse⟩ :: splitCommaAux cs [] else splitCommaAux cs (c :: acc)

/-- Python `str.split(',')` on a whole string. -/
def splitComma (s : String) : List String := splitCommaAux s.data []

/-- Lexicographic order on character lists by code point, the order Python
uses to compare strings; on ISO `YYYY-MM-DD` strings it coincides with
chronological order. -/
def charListLe : List Char → List Char → Bool
  | [], _ => true
  | _ :: _, [] => false
  | x :: xs, y :: ys =>
      if x.toNat < y.toNat then true
      else if y.toNat < x.toNat then false
      else charListLe xs ys

/-- Date order used to state that a `history` list is non-decreasing. -/
def dateLe (a b : String) : Bool := charListLe a.data b.data

/-- JSON body of `GET /api/prices` (the handler's `try` branch always
succeeds on in-memory data): `{"success": true, "data": price_data}`.
The `timestamp` field is boundary serialization and not modeled. -/
structure AllPricesResponse where
  success : Bool
  data : Catalog
deriving Repr, DecidableEq

/-- JSON body of `GET /api/prices/<product>`. The 404 object carries the
keys `error` and `available_products`; `available_products` is an `Option`
so that a JSON object lacking that key is `none`. -/
inductive ProductPriceResponse where
  | ok (product : String) (data : ProductRecord)
  | err (error : String) (available_products : Option (List String))
deriving Repr, DecidableEq

/-- JSON body of `GET /api/prices/<product>/history`. Its 404 object has
only the key `error` — no `available_products` — hence that field is
`none` in the embedding of the code's else-branch. -/
inductive PriceHistoryResponse where
  | ok (product : String) (history : List HistoryEntry)
  | err (error : String) (available_products : Option (List String))
deriving Repr, DecidableEq

/-- JSON body of `GET /api/prices/compare`: on success the `comparison`
dict plus the `cheapest` and `most_expensive` `{product, price}` pairs,
on failure (`400`) the `error` string and the `example` usage hint
(field `usage_example` here, since `example` is reserved in Lean). -/
inductive CompareResponse where
  | ok (comparison : List (String × Nat)) (cheapest : String × Nat)
      (most_expensive : String × Nat)
  | err (error : String) (usage_example : String)
deriving Repr, DecidableEq

/-- Handler of `GET /api/prices`: returns the whole `price_data` dict.
The state component is the global catalog after the call (never written). -/
def get_all_prices (c : Catalog) : AllPricesResponse × Catalog :=
  ({ success := true, data := c }, c)

/-- Handler of `GET /api/prices/<product>`: `if product in price_data`
return its record, else a 404 body with `available_products =
list(price_data.keys())`. -/
def get_product_price (c : Catalog) (product : String) :
    ProductPriceResponse × Catalog :=
  match c.lookup product with
  | some r => (.ok product r, c)
  | none => (.err ("找不到產品：" ++ product) (some (keys c)), c)

/-- Handler of `GET /api/prices/<product>/history`: `if product in
price_data` return its `history`, else a 404 body holding only the error
message (the code puts no `available_products` key in this branch). -/
def get_price_history (c : Catalog) (product : String) :
    PriceHistoryResponse × Catalog :=
  match c.lookup product with
  | some r => (.ok product r.history, c)
  | none => (.err ("找不到產品：" ++ product) none, c)

/-- Python dict assignment `d[k] = v` on an insertion-ordered association
list: overwrite in place when `k` is present, append otherwise. -/
def dictInsert (d : List (String × Nat)) (k : String) (v : Nat) :
    List (String × Nat) :=
  match d with
  | [] => [(k, v)]
  | (k', v') :: rest =>
      if k' = k then (k, v) :: rest else (k', v') :: dictInsert rest k v

/-- The `for product in products` loop of `compare_prices` (the spec's
`resolve_many` body): strip each name, look it up, and on a hit assign
`result[product] = price_data[product]["current_price"]`. -/
def resolveLoop (c : Catalog) : List String → List (String × Nat) → List (String × Nat)
  | [], result => result
  | n :: rest, result =>
      match c.lookup (pyStrip n) with
      | some r => resolveLoop c rest (dictInsert result (pyStrip n) r.current_price)
      | none => resolveLoop c rest result

/-- The spec's `resolve_many`: run the loop above starting from the empty
`result = {}` dict. -/
def resolve_many (c : Catalog) (names : List String) : List (String × Nat) :=
  resolveLoop c names []

/-- Every pair in `result` is a catalog hit with its `current_price`:
the invariant the `compare_prices` loop maintains. -/
def consistentWith (c : Catalog) (result : List (String × Nat)) : Prop :=
  ∀ p ∈ result, ∃ r, c.lookup p.1 = some r ∧ p.2 = r.current_price

/-- Python `min(items, key=lambda x: x[1])` with `x` the first item:
a later item replaces the current best only when strictly smaller, so the
first minimum in iteration order wins. -/
def minByPrice (x : String × Nat) (rest : List (String × Nat)) : String × Nat :=
  rest.foldl (fun best p => if p.2 < best.2 then p else best) x

/-- Python `max(items, key=lambda x: x[1])` with `x` the first item:
a later item replaces the current best only when strictly greater, so the
first maximum in iteration order wins. -/
def maxByPrice (x : String × Nat) (rest : List (String × Nat)) : String × Nat :=
  rest.foldl (fun best p => if best.2 < p.2 then p else best) x

/-- The spec's Comparison Engine `compare`: on a non-empty price mapping
select the minimum entry and the maximum entry (lines 159-162 of the
source, `min(result.items(), ...)` / `max(result.items(), ...)`);
`none` on the empty mapping, which the caller rules out. -/
def compare : List (String × Nat) → Option ((String × Nat) × (String × Nat))
  | [] => none
  | x :: rest => some (minByPrice x rest, maxByPrice x rest)

/-- The response built from a resolved price mapping: the `400`
`NoValidInput` body when `result` is empty (`if not result` in the
source), otherwise the comparison together with its extrema. -/
def compareRespond (result : List (String × Nat)) : CompareResponse :=
  match compare result with
  | none => .err "請提供有效的產品名稱" "/api/prices/compare?products=產品A,產品B"
  | some (cheapest, expensive) => .ok result cheapest expensive

/-- Handler of `GET /api/prices/compare`: split the `products` query
parameter on commas, resolve the names, and respond. -/
def compare_prices (c : Catalog) (productsArg : String) : CompareResponse × Catalog :=
  (compareRespond (resolve_many c (splitComma productsArg)), c)

end StarPilot


namespace StarPilot

theorem minByPrice_cons (x p : String × Nat) (rest : List (String × Nat)) :
    minByPrice x (p :: rest) = minByPrice (if p.2 < x.2 then p else x) rest := rfl

theorem maxByPrice_cons (x p : String × Nat) (rest : List (String × Nat)) :
    maxByPrice x (p :: rest) = maxByPrice (if x.2 < p.2 then p else x) rest := rfl

theorem minByPrice_le (rest : List (String × Nat)) (x : String × Nat) :
    (minByPrice x rest).2 ≤ x.2 ∧ ∀ p ∈ rest, (minByPrice x rest).2 ≤ p.2 := by
  induction rest generalizing x with
  | nil => exact ⟨Nat.le_refl _, by simp⟩
  | cons p rs ih =>
    rw [minByPrice_cons]
    rcases ih (if p.2 < x.2 then p else x) with ⟨h1, h2⟩
    by_cases hpx : p.2 < x.2
    · rw [if_pos hpx] at h1 h2 ⊢
      refine ⟨Nat.le_trans h1 (Nat.le_of_lt hpx), fun q hq => ?_⟩
      rcases List.mem_cons.mp hq with hq | hq
      · subst hq; exact h1
      · exact h2 q hq
    · rw [if_neg hpx] at h1 h2 ⊢
      refine ⟨h1, fun q hq => ?_⟩
      rcases List.mem_cons.mp hq with hq | hq
      · subst hq; exact Nat.le_trans h1 (Nat.le_of_not_lt hpx)
      · exact h2 q hq

theorem maxByPrice_ge (rest : List (String × Nat)) (x : String × Nat) :
    x.2 ≤ (maxByPrice x rest).2 ∧ ∀ p ∈ rest, p.2 ≤ (maxByPrice x rest).2 := by
  induction rest generalizing x with
  | nil => exact ⟨Nat.le_refl _, by simp⟩
  | cons p rs ih =>
    rw [maxByPrice_cons]
    rcases ih (if x.2 < p.2 then p else x) with ⟨h1, h2⟩
    by_cases hxp : x.2 < p.2
    · rw [if_pos hxp] at h1 h2 ⊢
      refine ⟨Nat.le_trans (Nat.le_of_lt hxp) h1, fun q hq => ?_⟩
      rcases List.mem_cons.mp hq with hq | hq
      · subst hq; exact h1
      · exact h2 q hq
    · rw [if_neg hxp] at h1 h2 ⊢
      refine ⟨h1, fun q hq => ?_⟩
      rcases List.mem_cons.mp hq with hq | hq
      · subst hq; exact Nat.le_trans (Nat.le_of_not_lt hxp) h1
      · exact h2 q hq

theorem minByPrice_mem (rest : List (String × Nat)) (x : String × Nat) :
    minByPrice x rest ∈ x :: rest := by
  induction rest generalizing x with
  | nil => simp [minByPrice]
  | cons p rs ih =>
    rw [minByPrice_cons]
    rcases List.mem_cons.mp (ih (if p.2 < x.2 then p else x)) with h | h
    · rw [h]
      by_cases hpx : p.2 < x.2
      · rw [if_pos hpx]; simp
      · rw [if_neg hpx]; simp
    · exact List.mem_cons_of_mem _ (List.mem_cons_of_mem _ h)

theorem maxByPrice_mem (rest : List (String × Nat)) (x : String × Nat) :
    maxByPrice x rest ∈ x :: rest := by
  induction rest generalizing x with
  | nil => simp [maxByPrice]
  | cons p rs ih =>
    rw [maxByPrice_cons]
    rcases List.mem_cons.mp (ih (if x.2 < p.2 then p else x)) with h | h
    · rw [h]
      by_cases hxp : x.2 < p.2
      · rw [if_pos hxp]; simp
      · rw [if_neg hxp]; simp
    · exact List.mem_cons_of_mem _ (List.mem_cons_of_mem _ h)

theorem minByPrice_first (rest : List (String × Nat)) (x : String × Nat) :
    (x :: rest).find? (fun p => p.2 == (minByPrice x rest).2) =
      some (minByPrice x rest) := by
  induction rest generalizing x with
  | nil => simp [minByPrice]
  | cons p rs ih =>
    rw [minByPrice_cons]
    by_cases hpx : p.2 < x.2
    · rw [if_pos hpx]
      have hlt : (minByPrice p rs).2 < x.2 :=
        Nat.lt_of_le_of_lt (minByPrice_le rs p).1 hpx
      rw [List.find?_cons_of_neg _ (by simpa using Nat.ne_of_gt hlt), ih p]
    · rw [if_neg hpx]
      rcases Nat.lt_or_ge (minByPrice x rs).2 x.2 with hlt | hge
      · have hpne : p.2 ≠ (minByPrice x rs).2 :=
          Nat.ne_of_gt (Nat.lt_of_lt_of_le hlt (Nat.le_of_not_lt hpx))
        have hxne : x.2 ≠ (minByPrice x rs).2 := Nat.ne_of_gt hlt
        have htail := ih x
        rw [List.find?_cons_of_neg _ (by simpa using hxne)] at htail
        rw [List.find?_cons_of_neg _ (by simpa using hxne),
          List.find?_cons_of_neg _ (by simpa using hpne), htail]
      · have heq : x.2 = (minByPrice x rs).2 :=
          Nat.le_antisymm hge (minByPrice_le rs x).1
        have htail := ih x
        rw [List.find?_cons_of_pos _ (by simpa using heq)] at htail
        rw [List.find?_cons_of_pos _ (by simpa using heq)]
        exact htail

theorem maxByPrice_first (rest : List (String × Nat)) (x : String × Nat) :
    (x :: rest).find? (fun p => p.2 == (maxByPrice x rest).2) =
      some (maxByPrice x rest) := by
  induction rest generalizing x with
  | nil => simp [maxByPrice]
  | cons p rs ih =>
    rw [maxByPrice_cons]
    by_cases hxp : x.2 < p.2
    · rw [if_pos hxp]
      have hlt : x.2 < (maxByPrice p rs).2 :=
        Nat.lt_of_lt_of_le hxp (maxByPrice_ge rs p).1
      rw [List.find?_cons_of_neg _ (by simpa using Nat.ne_of_lt hlt), ih p]
    · rw [if_neg hxp]
      rcases Nat.lt_or_ge x.2 (maxByPrice x rs).2 with hlt | hge
      · have hpne : p.2 ≠ (maxByPrice x rs).2 :=
          Nat.ne_of_lt (Nat.lt_of_le_of_lt (Nat.le_of_not_lt hxp) hlt)
        have hxne : x.2 ≠ (maxByPrice x rs).2 := Nat.ne_of_lt hlt
        have htail := ih x
        rw [List.find?_cons_of_neg _ (by simpa using hxne)] at htail
        rw [List.find?_cons_of_neg _ (by simpa using hxne),
          List.find?_cons_of_neg _ (by simpa using hpne), htail]
      · have heq : x.2 = (maxByPrice x rs).2 :=
          Nat.le_antisymm (maxByPrice_ge rs x).1 hge
        have htail := ih x
        rw [List.find?_cons_of_pos _ (by simpa using heq)] at htail
        rw [List.find?_cons_of_pos _ (by simpa using heq)]
        exact htail

end StarPilot


namespace StarPilot

theorem dictInsert_cons_hit (k' : String) (v' : Nat) (rest : List (String × Nat))
    (k : String) (v : Nat) (hk : k' = k) :
    dictInsert ((k', v') :: rest) k v = (k, v) :: rest := by
  simp [dictInsert, hk]

theorem dictInsert_cons_miss (k' : String) (v' : Nat) (rest : List (String × Nat))
    (k : String) (v : Nat) (hk : k' ≠ k) :
    dictInsert ((k', v') :: rest) k v = (k', v') :: dictInsert rest k v := by
  simp [dictInsert, hk]

theorem mem_keys_dictInsert (d : List (String × Nat)) (k : String) (v : Nat) (a : String) :
    a ∈ (dictInsert d k v).map Prod.fst ↔ a ∈ d.map Prod.fst ∨ a = k := by
  induction d with
  | nil => simp [dictInsert]
  | cons q rest ih =>
    rcases q with ⟨k', v'⟩
    by_cases hk : k' = k
    · rw [dictInsert_cons_hit k' v' rest k v hk]
      subst hk
      simp only [List.map_cons, List.mem_cons]
      tauto
    · rw [dictInsert_cons_miss k' v' rest k v hk]
      simp only [List.map_cons, List.mem_cons, ih]
      tauto

theorem keys_nodup_dictInsert (d : List (String × Nat)) (k : String) (v : Nat) :
    (d.map Prod.fst).Nodup → ((dictInsert d k v).map Prod.fst).Nodup := by
  induction d with
  | nil => intro _; simp [dictInsert]
  | cons q rest ih =>
    rcases q with ⟨k', v'⟩
    intro h
    simp only [List.map_cons, List.nodup_cons] at h
    by_cases hk : k' = k
    · rw [dictInsert_cons_hit k' v' rest k v hk]
      subst hk
      simp only [List.map_cons, List.nodup_cons]
      exact h
    · rw [dictInsert_cons_miss k' v' rest k v hk]
      simp only [List.map_cons, List.nodup_cons]
      refine ⟨fun hmem => ?_, ih h.2⟩
      rcases (mem_keys_dictInsert rest k v k').mp hmem with hm | hm
      · exact h.1 hm
      · exact hk hm

theorem mem_dictInsert_elim (d : List (String × Nat)) (k : String) (v : Nat)
    (p : String × Nat) : p ∈ dictInsert d k v → p ∈ d ∨ p = (k, v) := by
  induction d with
  | nil => intro h; simpa [dictInsert] using h
  | cons q rest ih =>
    rcases q with ⟨k', v'⟩
    intro h
    by_cases hk : k' = k
    · rw [dictInsert_cons_hit k' v' rest k v hk] at h
      rcases List.mem_cons.mp h with h | h
      · exact Or.inr h
      · exact Or.inl (List.mem_cons_of_mem _ h)
    · rw [dictInsert_cons_miss k' v' rest k v hk] at h
      rcases List.mem_cons.mp h with h | h
      · exact Or.inl (h ▸ List.mem_cons_self _ _)
      · rcases ih h with h2 | h2
        · exact Or.inl (List.mem_cons_of_mem _ h2)
        · exact Or.inr h2

theorem mem_dictInsert_self (d : List (String × Nat)) (k : String) (v : Nat) :
    (k, v) ∈ dictInsert d k v := by
  induction d with
  | nil => simp [dictInsert]
  | cons q rest ih =>
    rcases q with ⟨k', v'⟩
    by_cases hk : k' = k
    · rw [dictInsert_cons_hit k' v' rest k v hk]
      exact List.mem_cons_self _ _
    · rw [dictInsert_cons_miss k' v' rest k v hk]
      exact List.mem_cons_of_mem _ ih

theorem mem_dictInsert_of_mem (d : List (String × Nat)) (k : String) (v : Nat)
    (p : String × Nat) (hne : p.1 ≠ k) : p ∈ d → p ∈ dictInsert d k v := by
  induction d with
  | nil => intro hp; cases hp
  | cons q rest ih =>
    rcases q with ⟨k', v'⟩
    intro hp
    rcases List.mem_cons.mp hp with h | h
    · subst h
      rw [dictInsert_cons_miss k' v' rest k v hne]
      exact List.mem_cons_self _ _
    · by_cases hk : k' = k
      · rw [dictInsert_cons_hit k' v' rest k v hk]
        exact List.mem_cons_of_mem _ h
      · rw [dictInsert_cons_miss k' v' rest k v hk]
        exact List.mem_cons_of_mem _ (ih h)

theorem consistent_dictInsert (c : Catalog) (result : List (String × Nat))
    (k : String) (r : ProductRecord) (hcons : consistentWith c result)
    (hl : c.lookup k = some r) :
    consistentWith c (dictInsert result k r.current_price) := by
  intro p hp
  rcases mem_dictInsert_elim result k r.current_price p hp with h | h
  · exact hcons p h
  · subst h; exact ⟨r, hl, rfl⟩

theorem resolveLoop_cons_none (c : Catalog) (n : String) (rest : List String)
    (result : List (String × Nat)) (hl : c.lookup (pyStrip n) = none) :
    resolveLoop c (n :: rest) result = resolveLoop c rest result := by
  simp [resolveLoop, hl]

theorem resolveLoop_cons_some (c : Catalog) (n : String) (rest : List String)
    (result : List (String × Nat)) (r : ProductRecord)
    (hl : c.lookup (pyStrip n) = some r) :
    resolveLoop c (n :: rest) result =
      resolveLoop c rest (dictInsert result (pyStrip n) r.current_price) := by
  simp [resolveLoop, hl]

theorem resolveLoop_all_none (c : Catalog) :
    ∀ names : List String, (∀ n ∈ names, c.lookup (pyStrip n) = none) →
      ∀ result, resolveLoop c names result = result := by
  intro names
  induction names with
  | nil => intro _ result; rfl
  | cons m rest ih =>
    intro h result
    rw [resolveLoop_cons_none c m rest result (h m (List.mem_cons_self m rest))]
    exact ih (fun n hn => h n (List.mem_cons_of_mem m hn)) result

theorem resolveLoop_keys_nodup (c : Catalog) :
    ∀ names : List String, ∀ result : List (String × Nat),
      (result.map Prod.fst).Nodup →
      ((resolveLoop c names result).map Prod.fst).Nodup := by
  intro names
  induction names with
  | nil => intro result h; exact h
  | cons m rest ih =>
    intro result h
    cases hl : c.lookup (pyStrip m) with
    | none => rw [resolveLoop_cons_none c m rest result hl]; exact ih result h
    | some r =>
      rw [resolveLoop_cons_some c m rest result r hl]
      exact ih _ (keys_nodup_dictInsert result (pyStrip m) r.current_price h)

theorem resolveLoop_consistent (c : Catalog) :
    ∀ names : List String, ∀ result : List (String × Nat),
      consistentWith c result → consistentWith c (resolveLoop c names result) := by
  intro names
  induction names with
  | nil => intro result h; exact h
  | cons m rest ih =>
    intro result h
    cases hl : c.lookup (pyStrip m) with
    | none => rw [resolveLoop_cons_none c m rest result hl]; exact ih result h
    | some r =>
      rw [resolveLoop_cons_some c m rest result r hl]
      exact ih _ (consistent_dictInsert c result (pyStrip m) r h hl)

theorem resolveLoop_mem_preserved (c : Catalog) :
    ∀ names : List String, ∀ result : List (String × Nat),
      consistentWith c result → ∀ p ∈ result, p ∈ resolveLoop c names result := by
  intro names
  induction names with
  | nil => intro result _ p hp; exact hp
  | cons m rest ih =>
    intro result hcons p hp
    cases hl : c.lookup (pyStrip m) with
    | none =>
      rw [resolveLoop_cons_none c m rest result hl]
      exact ih result hcons p hp
    | some r =>
      rw [resolveLoop_cons_some c m rest result r hl]
      refine ih _ (consistent_dictInsert c result (pyStrip m) r hcons hl) p ?_
      by_cases hpk : p.1 = pyStrip m
      · rcases hcons p hp with ⟨r2, hl2, hv⟩
        rw [hpk, hl] at hl2
        have hr : r = r2 := Option.some.inj hl2
        subst hr
        have hpeq : p = (pyStrip m, r.current_price) := by
          rcases p with ⟨pk, pv⟩
          simp only at hpk hv
          rw [hpk, hv]
        rw [hpeq]
        exact mem_dictInsert_self result (pyStrip m) r.current_price
      · exact mem_dictInsert_of_mem result (pyStrip m) r.current_price p hpk hp

theorem resolveLoop_complete (c : Catalog) :
    ∀ names : List String, ∀ result : List (String × Nat),
      consistentWith c result →
      ∀ n ∈ names, ∀ r, c.lookup (pyStrip n) = some r →
        (pyStrip n, r.current_price) ∈ resolveLoop c names result := by
  intro names
  induction names with
  | nil => intro result _ n hn; cases hn
  | cons m rest ih =>
    intro result hcons n hn r hr
    rcases List.mem_cons.mp hn with hn | hn
    · subst hn
      rw [resolveLoop_cons_some c n rest result r hr]
      exact resolveLoop_mem_preserved c rest _
        (consistent_dictInsert c result (pyStrip n) r hcons hr) _
        (mem_dictInsert_self result (pyStrip n) r.current_price)
    · cases hl : c.lookup (pyStrip m) with
      | none =>
        rw [resolveLoop_cons_none c m rest result hl]
        exact ih result hcons n hn r hr
      | some r2 =>
        rw [resolveLoop_cons_some c m rest result r2 hl]
        exact ih _ (consistent_dictInsert c result (pyStrip m) r2 hcons hl) n hn r hr

theorem resolveLoop_origin (c : Catalog) :
    ∀ names : List String, ∀ result : List (String × Nat), ∀ p : String × Nat,
      p ∈ resolveLoop c names result →
      p ∈ result ∨ (∃ n ∈ names, pyStrip n = p.1) ∧
        ∃ r, c.lookup p.1 = some r ∧ p.2 = r.current_price := by
  intro names
  induction names with
  | nil => intro result p hp; exact Or.inl hp
  | cons m rest ih =>
    intro result p hp
    cases hl : c.lookup (pyStrip m) with
    | none =>
      rw [resolveLoop_cons_none c m rest result hl] at hp
      rcases ih result p hp with h | ⟨⟨n, hn, hstr⟩, hrec⟩
      · exact Or.inl h
      · exact Or.inr ⟨⟨n, List.mem_cons_of_mem m hn, hstr⟩, hrec⟩
    | some r =>
      rw [resolveLoop_cons_some c m rest result r hl] at hp
      rcases ih _ p hp with h | ⟨⟨n, hn, hstr⟩, hrec⟩
      · rcases mem_dictInsert_elim result (pyStrip m) r.current_price p h with h2 | h2
        · exact Or.inl h2
        · subst h2
          exact Or.inr ⟨⟨m, List.mem_cons_self m rest, rfl⟩, ⟨r, hl, rfl⟩⟩
      · exact Or.inr ⟨⟨n, List.mem_cons_of_mem m hn, hstr⟩, hrec⟩

theorem lookup_of_mem_of_keys_nodup (l : List (String × Nat)) (p : String × Nat)
    (hnd : (l.map Prod.fst).Nodup) (hp : p ∈ l) : l.lookup p.1 = some p.2 := by
  induction l with
  | nil => cases hp
  | cons q rest ih =>
    rcases q with ⟨k, v⟩
    simp only [List.map_cons, List.nodup_cons] at hnd
    rcases List.mem_cons.mp hp with h | h
    · subst h
      simp [List.lookup]
    · have hne : p.1 ≠ k := by
        intro hkeq
        exact hnd.1 (hkeq ▸ (List.mem_map_of_mem Prod.fst h))
      have hbeq : (p.1 == k) = false := beq_eq_false_iff_ne.mpr hne
      simp only [List.lookup, hbeq]
      exact ih hnd.2 h

end StarPilot

namespace StarPilot

theorem lookup_mem (c : Catalog) (name : String) (r : ProductRecord)
    (h : c.lookup name = some r) : (name, r) ∈ c := by
  induction c with
  | nil => cases h
  | cons q rest ih =>
    rcases q with ⟨k, v⟩
    by_cases hk : name = k
    · subst hk
      simp only [List.lookup, beq_self_eq_true] at h
      have hv : v = r := Option.some.inj h
      subst hv
      exact List.mem_cons_self _ _
    · have hbeq : (name == k) = false := beq_eq_false_iff_ne.mpr hk
      simp only [List.lookup, hbeq] at h
      exact List.mem_cons_of_mem _ (ih h)

theorem histA_sorted :
    List.Chain' (fun a b => dateLe a.date b.date = true)
      ([⟨"2024-01-01", 1000⟩, ⟨"2024-01-15", 1100⟩, ⟨"2024-02-01", 1200⟩] :
        List HistoryEntry) :=
  List.chain'_cons.mpr ⟨by decide,
    List.chain'_cons.mpr ⟨by decide, List.chain'_singleton _⟩⟩

theorem histB_sorted :
    List.Chain' (fun a b => dateLe a.date b.date = true)
      ([⟨"2024-01-01", 900⟩, ⟨"2024-01-15", 875⟩, ⟨"2024-02-01", 850⟩] :
        List HistoryEntry) :=
  List.chain'_cons.mpr ⟨by decide,
    List.chain'_cons.mpr ⟨by decide, List.chain'_singleton _⟩⟩

theorem histC_sorted :
    List.Chain' (fun a b => dateLe a.date b.date = true)
      ([⟨"2024-01-01", 1400⟩, ⟨"2024-01-15", 1450⟩, ⟨"2024-02-01", 1500⟩] :
        List HistoryEntry) :=
  List.chain'_cons.mpr ⟨by decide,
    List.chain'_cons.mpr ⟨by decide, List.chain'_singleton _⟩⟩

theorem price_data_records_ok (t : String) :
    ∀ p ∈ price_data t, p.2.history ≠ [] ∧
      p.2.history.Chain' (fun a b => dateLe a.date b.date = true) := by
  intro p hp
  simp only [price_data, List.mem_cons, List.not_mem_nil, or_false] at hp
  rcases hp with h | h | h
  · subst h; exact ⟨List.cons_ne_nil _ _, histA_sorted⟩
  · subst h; exact ⟨List.cons_ne_nil _ _, histB_sorted⟩
  · subst h; exact ⟨List.cons_ne_nil _ _, histC_sorted⟩

/-- C1: for every non-empty mapping from product name to price, `compare`
returns as `cheapest` an entry of minimum price and as `most_expensive`
an entry of maximum price, and on ties each is the first entry of that
extremal price in the mapping's insertion order (`List.find?` over the
association list returns the first match). -/
theorem compare_selects_extrema_first (prices : List (String × Nat))
    (h : prices ≠ []) :
    ∃ ch ex, compare prices = some (ch, ex) ∧
      (∀ p ∈ prices, ch.2 ≤ p.2) ∧ (∀ p ∈ prices, p.2 ≤ ex.2) ∧
      prices.find? (fun p => p.2 == ch.2) = some ch ∧
      prices.find? (fun p => p.2 == ex.2) = some ex := by
  cases prices with
  | nil => exact absurd rfl h
  | cons x rest =>
    refine ⟨minByPrice x rest, maxByPrice x rest, rfl, ?_, ?_,
      minByPrice_first rest x, maxByPrice_first rest x⟩
    · intro p hp
      rcases List.mem_cons.mp hp with hp | hp
      · rw [hp]; exact (minByPrice_le rest x).1
      · exact (minByPrice_le rest x).2 p hp
    · intro p hp
      rcases List.mem_cons.mp hp with hp | hp
      · rw [hp]; exact (maxByPrice_ge rest x).1
      · exact (maxByPrice_ge rest x).2 p hp

/-- Witness for C1, at the spec's tie test `compare({"A":1000,"B":1000})`. -/
theorem compare_selects_extrema_first_check :
    ∃ ch ex, compare [("A", 1000), ("B", 1000)] = some (ch, ex) ∧
      (∀ p ∈ [("A", 1000), ("B", 1000)], ch.2 ≤ p.2) ∧
      (∀ p ∈ [("A", 1000), ("B", 1000)], p.2 ≤ ex.2) ∧
      List.find? (fun p => p.2 == ch.2) [("A", 1000), ("B", 1000)] = some ch ∧
      List.find? (fun p => p.2 == ex.2) [("A", 1000), ("B", 1000)] = some ex :=
  compare_selects_extrema_first [("A", 1000), ("B", 1000)] (by decide)

/-- C2: when no name of the input sequence resolves (each stripped name
misses the catalog — in particular for the empty sequence, vacuously),
`resolve_many` yields the empty mapping and the compare operation answers
the `NoValidInput` body instead of a comparison result. -/
theorem resolve_many_signals_noValidInput (c : Catalog) (names : List String)
    (h : ∀ n ∈ names, c.lookup (pyStrip n) = none) :
    resolve_many c names = [] ∧
    compareRespond (resolve_many c names) =
      .err "請提供有效的產品名稱" "/api/prices/compare?products=產品A,產品B" := by
  have he : resolve_many c names = [] := resolveLoop_all_none c names h []
  refine ⟨he, ?_⟩
  rw [he]
  rfl

/-- Witness for C2, at the spec's two tests: the empty sequence and the
whitespace-and-empty sequence both signal `NoValidInput`. -/
theorem resolve_many_signals_noValidInput_check :
    (resolve_many (price_data "init") [] = [] ∧
      compareRespond (resolve_many (price_data "init") []) =
        .err "請提供有效的產品名稱" "/api/prices/compare?products=產品A,產品B") ∧
    (resolve_many (price_data "init") [" ", ""] = [] ∧
      compareRespond (resolve_many (price_data "init") [" ", ""]) =
        .err "請提供有效的產品名稱" "/api/prices/compare?products=產品A,產品B") :=
  ⟨resolve_many_signals_noValidInput (price_data "init") [] (by decide),
   resolve_many_signals_noValidInput (price_data "init") [" ", ""] (by decide)⟩

/-- C3: `resolve_many` trims each name, silently drops names missing
from the catalog, collapses duplicates (the key list of the result has no
duplicates), and maps every resolved name to that product's
`current_price`: every result entry comes from a trimmed input name and
carries the catalog's current price, and every input name that resolves
is present with its current price. -/
theorem resolve_many_trims_drops_collapses (c : Catalog) (names : List String) :
    (∀ p ∈ resolve_many c names,
        (∃ n ∈ names, pyStrip n = p.1) ∧
        ∃ r, c.lookup p.1 = some r ∧ p.2 = r.current_price) ∧
    (∀ n ∈ names, ∀ r, c.lookup (pyStrip n) = some r →
        (pyStrip n, r.current_price) ∈ resolve_many c names) ∧
    ((resolve_many c names).map Prod.fst).Nodup := by
  refine ⟨?_, ?_, ?_⟩
  · intro p hp
    rcases resolveLoop_origin c names [] p hp with h | h
    · cases h
    · exact h
  · intro n hn r hr
    exact resolveLoop_complete c names []
      (fun p hp => absurd hp (List.not_mem_nil p)) n hn r hr
  · exact resolveLoop_keys_nodup c names [] (by simp)

/-- Witness for C3, at the spec's duplicate test
`resolve_many(["產品A","產品A","產品B"])`, which yields exactly two entries. -/
theorem resolve_many_trims_drops_collapses_check :
    ((∀ p ∈ resolve_many (price_data "init") ["產品A", "產品A", "產品B"],
        (∃ n ∈ ["產品A", "產品A", "產品B"], pyStrip n = p.1) ∧
        ∃ r, (price_data "init").lookup p.1 = some r ∧ p.2 = r.current_price) ∧
     (∀ n ∈ ["產品A", "產品A", "產品B"], ∀ r,
        (price_data "init").lookup (pyStrip n) = some r →
        (pyStrip n, r.current_price) ∈
          resolve_many (price_data "init") ["產品A", "產品A", "產品B"]) ∧
     ((resolve_many (price_data "init") ["產品A", "產品A", "產品B"]).map Prod.fst).Nodup) ∧
    resolve_many (price_data "init") ["產品A", "產品A", "產品B"] =
      [("產品A", 1200), ("產品B", 850)] :=
  ⟨resolve_many_trims_drops_collapses (price_data "init") ["產品A", "產品A", "產品B"],
   by decide⟩

/-- C4: looking up a name absent from the catalog, `get_product_price`
answers the 404 `NotFound` body whose `available_products` list is exactly
the catalog's key list. -/
theorem price_of_notFound_alternatives (c : Catalog) (product : String)
    (h : c.lookup product = none) :
    (get_product_price c product).1 =
      .err ("找不到產品：" ++ product) (some (keys c)) := by
  simp [get_product_price, h]

/-- Witness for C4 at the spec's test `price_of("unknown")`. -/
theorem price_of_notFound_alternatives_check :
    (get_product_price (price_data "init") "unknown").1 =
      .err ("找不到產品：" ++ "unknown") (some (keys (price_data "init"))) :=
  price_of_notFound_alternatives (price_data "init") "unknown" (by decide)

/-- C5 counterexample: `get_price_history` on an absent name fails with
the `NotFound` body whose only payload is the error message —
`available_products` is absent (`none`), so the outcome does not list the
available names, contradicting the claim that every lookup operation's
failure does. -/
theorem history_of_notFound_lacks_alternatives :
    (get_price_history (price_data "init") "unknown").1 =
      .err ("找不到產品：" ++ "unknown") none ∧
    (get_price_history (price_data "init") "unknown").1 ≠
      .err ("找不到產品：" ++ "unknown") (some (keys (price_data "init"))) := by
  exact ⟨by decide, by decide⟩

/-- C5 (amended): on an absent name both lookup operations fail with the
`NotFound` body; `get_product_price` reports the available names, while
`get_price_history` reports only the error message, with no
available-names list. -/
theorem lookup_notFound_outcomes (c : Catalog) (product : String)
    (h : c.lookup product = none) :
    (get_product_price c product).1 =
      .err ("找不到產品：" ++ product) (some (keys c)) ∧
    (get_price_history c product).1 =
      .err ("找不到產品：" ++ product) none := by
  constructor
  · simp [get_product_price, h]
  · simp [get_price_history, h]

/-- Witness for the amended C5 at the input `"unknown"`. -/
theorem lookup_notFound_outcomes_check :
    (get_product_price (price_data "init") "unknown").1 =
      .err ("找不到產品：" ++ "unknown") (some (keys (price_data "init"))) ∧
    (get_price_history (price_data "init") "unknown").1 =
      .err ("找不到產品：" ++ "unknown") none :=
  lookup_notFound_outcomes (price_data "init") "unknown" (by decide)

/-- C6: whenever `get_product_price` succeeds on the seeded catalog, the
returned record's `history` is non-empty and its dates are non-decreasing
(lexicographic order on the ISO date strings, which is chronological). -/
theorem price_of_history_nonempty_sorted (t name : String) (r : ProductRecord)
    (h : (get_product_price (price_data t) name).1 = .ok name r) :
    r.history ≠ [] ∧
    r.history.Chain' (fun a b => dateLe a.date b.date = true) := by
  have hl : (price_data t).lookup name = some r := by
    cases hc : (price_data t).lookup name with
    | none => simp [get_product_price, hc] at h
    | some r2 =>
      simp [get_product_price, hc] at h
      rw [h]
  exact price_data_records_ok t (name, r) (lookup_mem (price_data t) name r hl)

/-- Witness for C6 at the catalog entry `產品A`. -/
theorem price_of_history_nonempty_sorted_check :
    (⟨1200, "init", [⟨"2024-01-01", 1000⟩, ⟨"2024-01-15", 1100⟩,
        ⟨"2024-02-01", 1200⟩]⟩ : ProductRecord).history ≠ [] ∧
    (⟨1200, "init", [⟨"2024-01-01", 1000⟩, ⟨"2024-01-15", 1100⟩,
        ⟨"2024-02-01", 1200⟩]⟩ : ProductRecord).history.Chain'
      (fun a b => dateLe a.date b.date = true) :=
  price_of_history_nonempty_sorted "init" "產品A"
    ⟨1200, "init", [⟨"2024-01-01", 1000⟩, ⟨"2024-01-15", 1100⟩,
      ⟨"2024-02-01", 1200⟩]⟩ (by decide)

/-- C7: `get_all_prices` returns the whole catalog mapping unchanged —
its key list is exactly the three names inserted at initialization, in
insertion order, and its cardinality is the catalog size. -/
theorem get_all_prices_returns_catalog (t : String) :
    (get_all_prices (price_data t)).1.data = price_data t ∧
    (get_all_prices (price_data t)).1.data.map Prod.fst =
      ["產品A", "產品B", "產品C"] ∧
    (get_all_prices (price_data t)).1.data.length = (price_data t).length ∧
    (price_data t).length = 3 :=
  ⟨rfl, rfl, rfl, rfl⟩

/-- C8: reading the whole catalog twice, the second read on the state
left by the first, yields structurally equal responses. -/
theorem get_all_prices_idempotent (c : Catalog) :
    (get_all_prices ((get_all_prices c).2)).1 = (get_all_prices c).1 := rfl

/-- C9: every handler leaves the catalog state unchanged, on success and
failure alike. -/
theorem handlers_read_only (c : Catalog) (product q : String) :
    (get_all_prices c).2 = c ∧ (get_product_price c product).2 = c ∧
    (get_price_history c product).2 = c ∧ (compare_prices c q).2 = c := by
  refine ⟨rfl, ?_, ?_, rfl⟩
  · cases hc : c.lookup product <;> simp [get_product_price, hc]
  · cases hc : c.lookup product <;> simp [get_price_history, hc]

/-- C10: whenever `compare_prices` succeeds, the reported cheapest price
is at most the reported most-expensive price, and both reported names are
keys of the returned comparison mapping bound to exactly the reported
prices. -/
theorem compare_result_consistent (c : Catalog) (q : String)
    (comparison : List (String × Nat)) (ch ex : String × Nat)
    (h : (compare_prices c q).1 = .ok comparison ch ex) :
    ch.2 ≤ ex.2 ∧
    comparison.lookup ch.1 = some ch.2 ∧
    comparison.lookup ex.1 = some ex.2 := by
  have hres : compareRespond (resolve_many c (splitComma q)) = .ok comparison ch ex := h
  cases hr : resolve_many c (splitComma q) with
  | nil =>
    rw [hr] at hres
    simp [compareRespond, compare] at hres
  | cons x rest =>
    rw [hr] at hres
    simp only [compareRespond, compare] at hres
    obtain ⟨h1, h2, h3⟩ := CompareResponse.ok.inj hres
    subst h1; subst h2; subst h3
    have hnd : ((x :: rest).map Prod.fst).Nodup := by
      have hbase := resolveLoop_keys_nodup c (splitComma q) [] (by simp)
      rw [show resolveLoop c (splitComma q) [] = resolve_many c (splitComma q) from rfl,
        hr] at hbase
      exact hbase
    refine ⟨Nat.le_trans (minByPrice_le rest x).1 (maxByPrice_ge rest x).1, ?_, ?_⟩
    · exact lookup_of_mem_of_keys_nodup _ _ hnd (minByPrice_mem rest x)
    · exact lookup_of_mem_of_keys_nodup _ _ hnd (maxByPrice_mem rest x)

/-- Witness for C10 at the spec's comparison test over all three seeded
products. -/
theorem compare_result_consistent_check :
    (("產品B", 850) : String × Nat).2 ≤ (("產品C", 1500) : String × Nat).2 ∧
    List.lookup (("產品B", 850) : String × Nat).1
        [("產品A", 1200), ("產品B", 850), ("產品C", 1500)] =
      some (("產品B", 850) : String × Nat).2 ∧
    List.lookup (("產品C", 1500) : String × Nat).1
        [("產品A", 1200), ("產品B", 850), ("產品C", 1500)] =
      some (("產品C", 1500) : String × Nat).2 :=
  compare_result_consistent (price_data "init") "產品A,產品B,產品C"
    [("產品A", 1200), ("產品B", 850), ("產品C", 1500)]
    ("產品B", 850) ("產品C", 1500) (by decide)

end StarPilot

section ConcreteChecks
open StarPilot
example : (StarPilot.price_data "x").lookup "產品B" =
    some { current_price := 850, last_update := "x",
           history := [⟨"2024-01-01", 900⟩, ⟨"2024-01-15", 875⟩, ⟨"2024-02-01", 850⟩] } := by
  decide
example : dateLe "2024-01-01" "2024-01-15" = true := by decide
example : splitComma "a, b ," = ["a", " b ", ""] := by decide
example : pyStrip "  產品A  " = "產品A" := by decide
example : pyStrip "" = "" := by decide
example : pyStrip " " = "" := by decide
example : splitComma "" = [""] := by decide
example : resolve_many (price_data "x") [" ", ""] = [] := by decide
example : resolve_many (price_data "x") ["產品A", "產品A", "產品B"] =
    [("產品A", 1200), ("產品B", 850)] := by decide
example : compare_prices (price_data "x") "產品A,產品B,產品C" =
    (.ok [("產品A", 1200), ("產品B", 850), ("產品C", 1500)]
      ("產品B", 850) ("產品C", 1500), price_data "x") := by decide
example : compare_prices (price_data "x") "" =
    (.err "請提供有效的產品名稱" "/api/prices/compare?products=產品A,產品B",
     price_data "x") := by decide
example : compare [("A", 1000), ("B", 1000)] =
    some (("A", 1000), ("A", 1000)) := by decide
end ConcreteChecks
